import Mathlib

/-!
# Verification of `gen-test-file.py` (json420/tub)

Shallow embedding of the record generator / binary encoder in
`src/gen-test-file.py`, and proofs of the spec's claims about it.

Bytes are `Fin 256`; a byte string is a `List Byte`.  The `hashlib.blake2b`
function (with `digest_size=30`) is external library code, modelled as an
abstract hash `HashFn`: an arbitrary function on byte strings whose output
always has length 30, exactly the guarantee `blake2b(..., digest_size=30)`
provides.  The process-wide entropy source `os.getrandom` is modelled as a
finite stream of available random bytes: a call consumes bytes from the
front and fails (the embedding of `EntropySourceUnavailable`, i.e. an
`OSError` from `os.getrandom`) when the stream cannot supply the requested
count.
-/

abbrev Byte := Fin 256

/-- Abstract model of `blake2b` with `digest_size=30` from `hashlib`:
a deterministic hash function whose digests are always 30 bytes. -/
structure HashFn where
  f : List Byte → List Byte
  len30 : ∀ d, (f d).length = 30

/-- `hash_data(data)`: `return blake2b(data, digest_size=30).digest()`. -/
def hash_data (H : HashFn) (data : List Byte) : List Byte := H.f data

/-- `int.from_bytes(bs, 'little')`. -/
def fromBytesLE (bs : List Byte) : Nat :=
  bs.foldr (fun b acc => b.val + 256 * acc) 0

/-- `n.to_bytes(k, 'little')` (for `n < 256^k`, where the Python call
is defined). -/
def toBytesLE : Nat → Nat → List Byte
  | 0, _ => []
  | k + 1, n => ⟨n % 256, Nat.mod_lt n (by norm_num)⟩ :: toBytesLE k (n / 256)

/-- `os.getrandom(n)` on an entropy stream: take `n` bytes off the front,
or fail if the source cannot supply them. -/
def getrandom (n : Nat) (ent : List Byte) : Option (List Byte × List Byte) :=
  if n ≤ ent.length then some (ent.take n, ent.drop n) else none

/-- `random_size()`: `return int.from_bytes(getrandom(2), 'little')`
(threading the entropy stream). -/
def random_size (ent : List Byte) : Option (Nat × List Byte) :=
  (getrandom 2 ent).map (fun p => (fromBytesLE p.1, p.2))

/-- `random_data()`: `return getrandom(random_size())` — the size is drawn
first, in a separate read, then that many content bytes. -/
def random_data (ent : List Byte) : Option (List Byte × List Byte) :=
  (random_size ent).bind (fun p => getrandom p.1 p.2)

/-- One hex character (lowercase), as produced by `bytes.hex()`. -/
def hexChar (n : Nat) : Nat := if n < 10 then 48 + n else 87 + n

/-- `bs.hex()`: the hexadecimal rendering of a byte string, as a list of
character codes. -/
def hex (bs : List Byte) : List Nat :=
  (bs.map (fun b => [hexChar (b.val / 16), hexChar (b.val % 16)])).flatten

/-! ### Basic lemmas on the byte-level encodings -/

@[simp] theorem toBytesLE_length (k n : Nat) : (toBytesLE k n).length = k := by
  induction k generalizing n with
  | zero => rfl
  | succ k ih => simp [toBytesLE, ih]

theorem fromBytesLE_toBytesLE (k n : Nat) :
    fromBytesLE (toBytesLE k n) = n % 256 ^ k := by
  induction k generalizing n with
  | zero => simp [toBytesLE, fromBytesLE, Nat.mod_one]
  | succ k ih =>
    have hsplit : n = 256 ^ (k + 1) * (n / 256 / 256 ^ k) +
        (256 * (n / 256 % 256 ^ k) + n % 256) := by
      have h1 := Nat.div_add_mod n 256
      have h2 := Nat.div_add_mod (n / 256) (256 ^ k)
      calc n = 256 * (n / 256) + n % 256 := (Nat.div_add_mod n 256).symm
        _ = 256 * (256 ^ k * (n / 256 / 256 ^ k) + n / 256 % 256 ^ k) + n % 256 := by
              rw [h2]
        _ = 256 ^ (k + 1) * (n / 256 / 256 ^ k) +
              (256 * (n / 256 % 256 ^ k) + n % 256) := by ring
    have hlt : 256 * (n / 256 % 256 ^ k) + n % 256 < 256 ^ (k + 1) := by
      have h3 : n / 256 % 256 ^ k < 256 ^ k := Nat.mod_lt _ (Nat.pos_pow_of_pos k (by norm_num))
      have h4 : n % 256 < 256 := Nat.mod_lt n (by norm_num)
      have : 256 * (n / 256 % 256 ^ k) ≤ 256 * (256 ^ k - 1) :=
        Nat.mul_le_mul_left 256 (by omega)
      have hp : (0:Nat) < 256 ^ k := Nat.pos_pow_of_pos k (by norm_num)
      rw [pow_succ]
      omega
    have hmod : n % 256 ^ (k + 1) = 256 * (n / 256 % 256 ^ k) + n % 256 := by
      conv_lhs => rw [hsplit]
      rw [Nat.mul_add_mod, Nat.mod_eq_of_lt hlt]
    simp only [toBytesLE, fromBytesLE, List.foldr_cons]
    rw [show (toBytesLE k (n / 256)).foldr (fun b acc => b.val + 256 * acc) 0 =
          fromBytesLE (toBytesLE k (n / 256)) from rfl, ih]
    omega

theorem fromBytesLE_lt (bs : List Byte) : fromBytesLE bs < 256 ^ bs.length := by
  induction bs with
  | nil => simp [fromBytesLE]
  | cons b t ih =>
    have hb := b.isLt
    simp only [fromBytesLE, List.foldr_cons, List.length_cons] at *
    rw [pow_succ]
    omega

/-! ### Record encoder, console events, driver loop, and main -/

/-- The record buffer built by `random_entry` for a payload `d`:
`h = hash_data(d)`, `s = len(d).to_bytes(8, 'little')`,
`return b''.join([h, s, d])`. -/
def entry (H : HashFn) (d : List Byte) : List Byte :=
  List.flatten [hash_data H d, toBytesLE 8 d.length, d]

/-- Observable I/O events of a run: the per-record console line
`print(h.hex(), len(d))`, a write of a buffer to the output file, the
final `print(total)`, and a close of the output file handle (never
emitted by this program, which has no `close`/`with`). -/
inductive Event where
  | console (hexDigest : List Nat) (len : Nat)
  | write (buf : List Byte)
  | consoleTotal (total : Nat)
  | close
deriving DecidableEq

/-- The console line `print(h.hex(), len(d))` emitted by `random_entry`. -/
def entryEvent (H : HashFn) (d : List Byte) : Event :=
  Event.console (hex (hash_data H d)) d.length

/-- `random_entry()`: draw a payload, hash it, encode the length, print
the diagnostic line, and return the joined buffer (with the consumed
entropy stream threaded through). -/
def random_entry (H : HashFn) (ent : List Byte) :
    Option (List Byte × Event × List Byte) :=
  (random_data ent).map (fun p => (entry H p.1, entryEvent H p.1, p.2))

/-- State of the driver loop: the running byte counter `total`, the bytes
written to the output file so far, the emitted I/O events, and the
remaining entropy stream. -/
structure RunState where
  total : Nat
  file : List Byte
  events : List Event
  ent : List Byte

/-- The failure taxonomy of the run. -/
inductive GenError where
  | outputPathExists
  | entropySourceUnavailable
  | ioWriteFailure
deriving DecidableEq

/-- The driver loop `for i in range(N): buf = random_entry(); total +=
fp.write(buf)`.  `wok` models whether `fp.write` succeeds, as a function
of the number of bytes already in the file (e.g. disk full); a failed
write raises, aborting the loop with the counter unchanged.  An entropy
failure inside `random_entry` aborts before anything is printed or
written for that record. -/
def runLoop (H : HashFn) (wok : Nat → Bool) :
    Nat → RunState → RunState × Option GenError
  | 0, s => (s, none)
  | n + 1, s =>
    match random_entry H s.ent with
    | none => (s, some GenError.entropySourceUnavailable)
    | some (buf, ev, rest) =>
      if wok s.file.length then
        runLoop H wok n
          ⟨s.total + buf.length, s.file ++ buf,
           s.events ++ [ev, Event.write buf], rest⟩
      else (⟨s.total, s.file, s.events ++ [ev], rest⟩,
            some GenError.ioWriteFailure)

/-- Outcome of the whole program: the content at the output path (`none`
if no file exists there), the emitted events, the remaining entropy, and
the error, if any. -/
structure MainResult where
  fs : Option (List Byte)
  events : List Event
  ent : List Byte
  err : Option GenError

/-- The reference configuration's record count: `range(100_000)`. -/
def N_REF : Nat := 100000

/-- The loop's start state: `total = 0`, empty file. -/
def initState (ent : List Byte) : RunState := ⟨0, [], [], ent⟩

/-- The whole program: `fp = open('test.btdb', 'xb')` — mode `x` is
exclusive creation, failing with `FileExistsError` before anything else
happens if the path already holds a file (left untouched) — then the
driver loop, then `print(total)`.  There is no `close` and no `with`. -/
def gen_main (H : HashFn) (wok : Nat → Bool) (N : Nat)
    (existing : Option (List Byte)) (ent : List Byte) : MainResult :=
  match existing with
  | some c => ⟨some c, [], ent, some GenError.outputPathExists⟩
  | none =>
    match runLoop H wok N (initState ent) with
    | (s, none) => ⟨some s.file, s.events ++ [Event.consoleTotal s.total], s.ent, none⟩
    | (s, some e) => ⟨some s.file, s.events, s.ent, some e⟩

/-- Modelled from the spec: the repository contains no reader, so the
parser is taken from §6 of the spec — "read 30 bytes digest, read 8
bytes length, read `length` bytes payload". -/
def parse_record (buf : List Byte) : Option (List Byte × Nat × List Byte) :=
  if 38 ≤ buf.length ∧ 38 + fromBytesLE ((buf.drop 30).take 8) ≤ buf.length then
    some (buf.take 30, fromBytesLE ((buf.drop 30).take 8),
          (buf.drop 38).take (fromBytesLE ((buf.drop 30).take 8)))
  else none

/-- Modelled from the spec: re-encoding a parsed `(digest, length,
payload)` triple per §3 — `digest || length || payload` with the length
as 8 little-endian bytes. -/
def reencode (t : List Byte × Nat × List Byte) : List Byte :=
  t.1 ++ toBytesLE 8 t.2.1 ++ t.2.2

/-- A concrete 30-byte-output hash function, for witnesses. -/
def Htriv : HashFn :=
  ⟨fun _ => List.replicate 30 (0 : Byte), fun _ => List.length_replicate 30 _⟩

/-! ### Shape lemmas for the encoder and the loop -/

theorem entry_eq_append (H : HashFn) (d : List Byte) :
    entry H d = hash_data H d ++ toBytesLE 8 d.length ++ d := by
  simp [entry]

theorem entry_length (H : HashFn) (d : List Byte) :
    (entry H d).length = 38 + d.length := by
  simp [entry, hash_data, H.len30]
  omega

/-- File content contributed by a list of fully written records. -/
def recFile (H : HashFn) (ds : List (List Byte)) : List Byte :=
  (ds.map (entry H)).flatten

/-- Event trace contributed by a list of fully written records: for each
record, its console line strictly precedes the write of its bytes. -/
def recEvents (H : HashFn) (ds : List (List Byte)) : List Event :=
  (ds.map (fun d => [entryEvent H d, Event.write (entry H d)])).flatten

/-- Byte count contributed by a list of fully written records. -/
def recSize (ds : List (List Byte)) : Nat :=
  (ds.map (fun d => 38 + d.length)).sum

@[simp] theorem recFile_nil (H : HashFn) : recFile H [] = [] := rfl

@[simp] theorem recFile_cons (H : HashFn) (d : List Byte) (ds : List (List Byte)) :
    recFile H (d :: ds) = entry H d ++ recFile H ds := by
  simp [recFile]

@[simp] theorem recEvents_nil (H : HashFn) : recEvents H [] = [] := rfl

@[simp] theorem recEvents_cons (H : HashFn) (d : List Byte) (ds : List (List Byte)) :
    recEvents H (d :: ds) =
      entryEvent H d :: Event.write (entry H d) :: recEvents H ds := by
  simp [recEvents]

@[simp] theorem recSize_nil : recSize [] = 0 := rfl

@[simp] theorem recSize_cons (d : List Byte) (ds : List (List Byte)) :
    recSize (d :: ds) = 38 + d.length + recSize ds := by
  simp [recSize]

theorem recFile_length (H : HashFn) (ds : List (List Byte)) :
    (recFile H ds).length = recSize ds := by
  induction ds with
  | nil => rfl
  | cons d ds ih => simp [entry_length, ih]

/-- Master lemma on the driver loop: whatever happens, the file grows by a
list of complete records, the counter grows by exactly their sizes, and
the event trace grows by console-then-write pairs — on a clean run one
pair per iteration, on an entropy failure nothing extra, on a write
failure one trailing console line whose record was never written. -/
theorem runLoop_spec (H : HashFn) (wok : Nat → Bool) (n : Nat) :
    ∀ s : RunState, ∃ ds : List (List Byte),
      (runLoop H wok n s).1.file = s.file ++ recFile H ds ∧
      (runLoop H wok n s).1.total = s.total + recSize ds ∧
      ((runLoop H wok n s).2 = none →
        (runLoop H wok n s).1.events = s.events ++ recEvents H ds ∧ ds.length = n) ∧
      ((runLoop H wok n s).2 = some GenError.entropySourceUnavailable →
        (runLoop H wok n s).1.events = s.events ++ recEvents H ds) ∧
      ((runLoop H wok n s).2 = some GenError.ioWriteFailure →
        ∃ dfail, (runLoop H wok n s).1.events =
          s.events ++ recEvents H ds ++ [entryEvent H dfail]) := by
  induction n with
  | zero =>
    intro s
    refine ⟨[], ?_⟩
    simp [runLoop]
  | succ n ih =>
    intro s
    cases hrd : random_data s.ent with
    | none =>
      have hre : random_entry H s.ent = none := by simp [random_entry, hrd]
      refine ⟨[], ?_⟩
      simp [runLoop, hre]
    | some p =>
      obtain ⟨d, rest⟩ := p
      have hre : random_entry H s.ent = some (entry H d, entryEvent H d, rest) := by
        simp [random_entry, hrd]
      by_cases hw : wok s.file.length
      · obtain ⟨ds, h1, h2, h3, h4, h5⟩ :=
          ih ⟨s.total + (entry H d).length, s.file ++ entry H d,
              s.events ++ [entryEvent H d, Event.write (entry H d)], rest⟩
        have hrun : runLoop H wok (n + 1) s =
            runLoop H wok n
              ⟨s.total + (entry H d).length, s.file ++ entry H d,
               s.events ++ [entryEvent H d, Event.write (entry H d)], rest⟩ := by
          simp [runLoop, hre, hw]
        refine ⟨d :: ds, ?_, ?_, ?_, ?_, ?_⟩
        · rw [hrun, h1]
          simp
        · rw [hrun, h2]
          simp [entry_length]
          omega
        · intro hnone
          rw [hrun] at hnone ⊢
          obtain ⟨he, hl⟩ := h3 hnone
          refine ⟨?_, by simp [hl]⟩
          rw [he]
          simp
        · intro hent2
          rw [hrun] at hent2 ⊢
          have he := h4 hent2
          rw [he]
          simp
        · intro hio
          rw [hrun] at hio ⊢
          obtain ⟨dfail, he⟩ := h5 hio
          refine ⟨dfail, ?_⟩
          rw [he]
          simp
      · have hrun : runLoop H wok (n + 1) s =
            (⟨s.total, s.file, s.events ++ [entryEvent H d], rest⟩,
             some GenError.ioWriteFailure) := by
          simp [runLoop, hre, hw]
        refine ⟨[], ?_⟩
        rw [hrun]
        refine ⟨by simp, by simp, by simp, by simp, fun _ => ⟨d, by simp⟩⟩

/-! ### Helper lemmas for the claims -/

theorem hash_data_length (H : HashFn) (d : List Byte) :
    (hash_data H d).length = 30 := H.len30 d

theorem entry_take_30 (H : HashFn) (d : List Byte) :
    (entry H d).take 30 = hash_data H d := by
  rw [entry_eq_append, List.append_assoc]
  exact List.take_left' (hash_data_length H d)

theorem entry_drop_30 (H : HashFn) (d : List Byte) :
    (entry H d).drop 30 = toBytesLE 8 d.length ++ d := by
  rw [entry_eq_append, List.append_assoc]
  exact List.drop_left' (hash_data_length H d)

theorem entry_drop_38 (H : HashFn) (d : List Byte) :
    (entry H d).drop 38 = d := by
  rw [entry_eq_append]
  exact List.drop_left' (by simp [hash_data_length])

theorem fromBytesLE_toBytesLE_8 (n : Nat) (h : n < 2 ^ 64) :
    fromBytesLE (toBytesLE 8 n) = n := by
  have h8 : (256 : Nat) ^ 8 = 2 ^ 64 := by norm_num
  rw [fromBytesLE_toBytesLE, h8]
  exact Nat.mod_eq_of_lt h

theorem random_data_le (ent d rest : List Byte)
    (h : random_data ent = some (d, rest)) : d.length ≤ 65535 := by
  by_cases h2 : 2 ≤ ent.length
  · have hfb : fromBytesLE (ent.take 2) < 65536 := by
      have hlt := fromBytesLE_lt (ent.take 2)
      have hl : (ent.take 2).length = 2 := by
        simp [List.length_take]
        omega
      rw [hl] at hlt
      norm_num at hlt
      exact hlt
    simp [random_data, random_size, getrandom, h2] at h
    obtain ⟨-, hd, -⟩ := h
    rw [← hd]
    simp [List.length_take]
    omega
  · simp [random_data, random_size, getrandom, h2] at h

theorem random_data_forced (n : Nat) (hn : n ≤ 65535) :
    random_data (toBytesLE 2 n ++ List.replicate n (0 : Byte)) =
      some (List.replicate n (0 : Byte), []) := by
  have hfb : fromBytesLE (toBytesLE 2 n) = n := by
    rw [fromBytesLE_toBytesLE]
    exact Nat.mod_eq_of_lt (by norm_num; omega)
  have htake : (toBytesLE 2 n ++ List.replicate n (0 : Byte)).take 2 =
      toBytesLE 2 n := List.take_left' (toBytesLE_length 2 n)
  have hdrop : (toBytesLE 2 n ++ List.replicate n (0 : Byte)).drop 2 =
      List.replicate n (0 : Byte) := List.drop_left' (toBytesLE_length 2 n)
  simp [random_data, random_size, getrandom, htake, hdrop, hfb]

theorem runLoop_add_ok (H : HashFn) (wok : Nat → Bool) (m j : Nat) :
    ∀ s : RunState, (runLoop H wok m s).2 = none →
      runLoop H wok (m + j) s = runLoop H wok j ((runLoop H wok m s).1) := by
  induction m with
  | zero =>
    intro s _
    rw [Nat.zero_add]
    rfl
  | succ m ih =>
    intro s h
    have hadd : m + 1 + j = (m + j) + 1 := by omega
    cases hrd : random_data s.ent with
    | none =>
      have hre : random_entry H s.ent = none := by simp [random_entry, hrd]
      rw [runLoop] at h
      simp [hre] at h
    | some p =>
      obtain ⟨d, rest⟩ := p
      have hre : random_entry H s.ent = some (entry H d, entryEvent H d, rest) := by
        simp [random_entry, hrd]
      by_cases hw : wok s.file.length
      · have hstep : runLoop H wok (m + 1) s =
            runLoop H wok m
              ⟨s.total + (entry H d).length, s.file ++ entry H d,
               s.events ++ [entryEvent H d, Event.write (entry H d)], rest⟩ := by
          simp [runLoop, hre, hw]
        have hstep2 : runLoop H wok ((m + j) + 1) s =
            runLoop H wok (m + j)
              ⟨s.total + (entry H d).length, s.file ++ entry H d,
               s.events ++ [entryEvent H d, Event.write (entry H d)], rest⟩ := by
          simp [runLoop, hre, hw]
        rw [hstep] at h
        rw [hadd, hstep2, ih _ h, hstep]
      · rw [runLoop] at h
        simp [hre, hw] at h

theorem runLoop_no_close (H : HashFn) (wok : Nat → Bool) (n : Nat) :
    ∀ s : RunState, Event.close ∈ (runLoop H wok n s).1.events →
      Event.close ∈ s.events := by
  induction n with
  | zero =>
    intro s h
    exact h
  | succ n ih =>
    intro s h
    cases hrd : random_data s.ent with
    | none =>
      have hre : random_entry H s.ent = none := by simp [random_entry, hrd]
      rw [runLoop] at h
      simpa [hre] using h
    | some p =>
      obtain ⟨d, rest⟩ := p
      have hre : random_entry H s.ent = some (entry H d, entryEvent H d, rest) := by
        simp [random_entry, hrd]
      by_cases hw : wok s.file.length
      · have hstep : runLoop H wok (n + 1) s =
            runLoop H wok n
              ⟨s.total + (entry H d).length, s.file ++ entry H d,
               s.events ++ [entryEvent H d, Event.write (entry H d)], rest⟩ := by
          simp [runLoop, hre, hw]
        rw [hstep] at h
        have := ih _ h
        simp [entryEvent] at this
        exact this
      · rw [runLoop] at h
        simp [hre, hw, entryEvent] at h
        exact h

/-! ### The claims -/

/-- Claim C1: for every payload `p` (with `len(p) < 2^64`, the domain of
the Python call `len(d).to_bytes(8, 'little')`), the record encoder
produces exactly `digest || length_bytes || payload`, where the digest is
the fixed 30-byte hash of `p` and the length bytes are the 8-byte
little-endian encoding of `len(p)` (they decode back to `len(p)`); the
buffer's total size is `30 + 8 + len(p) = 38 + len(p)`.  `entry` is a
plain function of `p`, so the encoding is pure and deterministic. -/
theorem C1_encoder_exact (H : HashFn) (p : List Byte) (hp : p.length < 2 ^ 64) :
    entry H p = hash_data H p ++ toBytesLE 8 p.length ++ p ∧
    fromBytesLE (toBytesLE 8 p.length) = p.length ∧
    (toBytesLE 8 p.length).length = 8 ∧
    (hash_data H p).length = 30 ∧
    (entry H p).length = 38 + p.length :=
  ⟨entry_eq_append H p, fromBytesLE_toBytesLE_8 p.length hp,
   toBytesLE_length 8 p.length, hash_data_length H p, entry_length H p⟩

theorem C1_encoder_exact_witness :
    ([6, 7] : List Byte).length < 2 ^ 64 ∧
    entry Htriv [6, 7] =
      hash_data Htriv [6, 7] ++ toBytesLE 8 ([6, 7] : List Byte).length ++ [6, 7] ∧
    (entry Htriv [6, 7]).length = 38 + ([6, 7] : List Byte).length :=
  ⟨by norm_num, (C1_encoder_exact Htriv [6, 7] (by norm_num)).1,
   (C1_encoder_exact Htriv [6, 7] (by norm_num)).2.2.2.2⟩

/-- Claim C2: for every payload, the first 30 bytes of its encoded record
equal the hash of the payload (`blake2b` with 30-byte output, modelled by
the abstract `HashFn`), and the digest field has fixed width 30
regardless of payload size. -/
theorem C2_digest_field (H : HashFn) (p : List Byte) :
    (entry H p).take 30 = hash_data H p ∧ (hash_data H p).length = 30 :=
  ⟨entry_take_30 H p, hash_data_length H p⟩

/-- Claim C3: parsing an encoded record as 30 bytes of digest, an 8-byte
little-endian length, and that many payload bytes recovers exactly
`(digest, len(payload), payload)`, and re-encoding the parsed triple
reproduces the identical buffer; in particular the length field decodes
to exactly `len(payload)`.  (`len(payload) < 2^64` is the domain of the
Python `to_bytes(8, ...)` call that built the record.) -/
theorem C3_record_roundtrip (H : HashFn) (d : List Byte) (hd : d.length < 2 ^ 64) :
    parse_record (entry H d) = some (hash_data H d, d.length, d) ∧
    reencode (hash_data H d, d.length, d) = entry H d := by
  have hlen := entry_length H d
  have hn : fromBytesLE (((entry H d).drop 30).take 8) = d.length := by
    rw [entry_drop_30, List.take_left' (toBytesLE_length 8 d.length),
        fromBytesLE_toBytesLE_8 d.length hd]
  constructor
  · unfold parse_record
    rw [hn, if_pos ⟨by omega, by omega⟩, entry_take_30, entry_drop_38,
        List.take_length]
  · rw [reencode, entry_eq_append]

theorem C3_record_roundtrip_witness :
    ([9] : List Byte).length < 2 ^ 64 ∧
    parse_record (entry Htriv [9]) =
      some (hash_data Htriv [9], ([9] : List Byte).length, [9]) ∧
    reencode (hash_data Htriv [9], ([9] : List Byte).length, [9]) =
      entry Htriv [9] :=
  ⟨by norm_num, (C3_record_roundtrip Htriv [9] (by norm_num)).1,
   (C3_record_roundtrip Htriv [9] (by norm_num)).2⟩

/-- Claim C4: the payload length is drawn as a 16-bit little-endian
value from 2 random bytes, in a separate read performed before the
content bytes are read (third conjunct: `random_data` is literally
size-then-content); every produced payload has length in `[0, 65535]`
(first conjunct), and every length in that range — `0` and `65535`
included — is reached for some entropy input, with no rejection or
special-casing of the extremes (second conjunct). -/
theorem C4_payload_size :
    (∀ ent d rest : List Byte, random_data ent = some (d, rest) →
      d.length ≤ 65535) ∧
    (∀ n : Nat, n ≤ 65535 →
      random_data (toBytesLE 2 n ++ List.replicate n (0 : Byte)) =
        some (List.replicate n (0 : Byte), []) ∧
      (List.replicate n (0 : Byte)).length = n) ∧
    (∀ ent, random_data ent = (random_size ent).bind fun p => getrandom p.1 p.2) :=
  ⟨fun ent d rest h => random_data_le ent d rest h,
   fun n hn => ⟨random_data_forced n hn, List.length_replicate n _⟩,
   fun _ => rfl⟩

theorem C4_payload_size_witness :
    (0 : Nat) ≤ 65535 ∧ (65535 : Nat) ≤ 65535 ∧
    random_data (toBytesLE 2 0 ++ List.replicate 0 (0 : Byte)) =
      some (List.replicate 0 (0 : Byte), []) ∧
    random_data (toBytesLE 2 65535 ++ List.replicate 65535 (0 : Byte)) =
      some (List.replicate 65535 (0 : Byte), []) :=
  ⟨by norm_num, by norm_num,
   (C4_payload_size.2.1 0 (by norm_num)).1,
   (C4_payload_size.2.1 65535 (by norm_num)).1⟩

/-- Claim C5: the running byte counter always equals the number of bytes
in the output file, and both equal `Σᵢ (38 + len(payloadᵢ))` over the
records written so far — for every iteration count `N` (first conjunct;
quantifying over all `N` captures the state after every iteration, and
the second conjunct shows the loop is fuel-independent: the state after
`k` error-free iterations of a longer run is exactly `runLoop k`'s
state, so the equality is a running invariant of the loop). -/
theorem C5_size_invariant (H : HashFn) (wok : Nat → Bool) (N : Nat)
    (ent : List Byte) :
    (∃ ds : List (List Byte),
      (runLoop H wok N (initState ent)).1.file = recFile H ds ∧
      (runLoop H wok N (initState ent)).1.total =
        (ds.map (fun d => 38 + d.length)).sum ∧
      (runLoop H wok N (initState ent)).1.total =
        (runLoop H wok N (initState ent)).1.file.length) ∧
    (∀ k j : Nat, (runLoop H wok k (initState ent)).2 = none →
      runLoop H wok (k + j) (initState ent) =
        runLoop H wok j ((runLoop H wok k (initState ent)).1)) := by
  constructor
  · obtain ⟨ds, h1, h2, -, -, -⟩ := runLoop_spec H wok N (initState ent)
    refine ⟨ds, ?_, ?_, ?_⟩
    · simpa [initState] using h1
    · simpa [initState, recSize] using h2
    · rw [h1, h2]
      simp [initState, recFile_length, recSize]
  · exact fun k j => runLoop_add_ok H wok k j (initState ent)

theorem C5_size_invariant_witness :
    (runLoop Htriv (fun _ => true) 1 (initState [0, 0])).2 = none ∧
    runLoop Htriv (fun _ => true) (1 + 1) (initState [0, 0]) =
      runLoop Htriv (fun _ => true) 1
        ((runLoop Htriv (fun _ => true) 1 (initState [0, 0])).1) :=
  ⟨by decide, (C5_size_invariant Htriv (fun _ => true) 5 [0, 0]).2 1 1 (by decide)⟩

/-- Claim C6: generating into a path that already holds a file fails with
`OutputPathExists` (mode `xb` is exclusive creation — never truncating
or overwriting): the pre-existing content `c` is untouched, no console
or write event happens, and no entropy is consumed. -/
theorem C6_exclusive_creation (H : HashFn) (wok : Nat → Bool) (N : Nat)
    (c ent : List Byte) :
    gen_main H wok N (some c) ent =
      ⟨some c, [], ent, some GenError.outputPathExists⟩ := rfl

/-- Claim C7: the generation driver is a bounded counter loop — a run
that completes without failure has performed exactly `N` iterations,
each invoking the payload source then the encoder and appending the
record to the output: the final file is the concatenation of exactly `N`
records, with one console-then-write event pair per record.  The model
takes `N` as a parameter; the reference configuration
(`range(100_000)`) fixes it to `N_REF = 100000`. -/
theorem C7_bounded_loop (H : HashFn) (wok : Nat → Bool) (N : Nat)
    (ent : List Byte) (h : (runLoop H wok N (initState ent)).2 = none) :
    N_REF = 100000 ∧
    ∃ ds : List (List Byte), ds.length = N ∧
      (runLoop H wok N (initState ent)).1.file = recFile H ds ∧
      (runLoop H wok N (initState ent)).1.events = recEvents H ds := by
  refine ⟨rfl, ?_⟩
  obtain ⟨ds, h1, -, h3, -, -⟩ := runLoop_spec H wok N (initState ent)
  obtain ⟨he, hl⟩ := h3 h
  exact ⟨ds, hl, by simpa [initState] using h1, by simpa [initState] using he⟩

theorem C7_bounded_loop_witness :
    (runLoop Htriv (fun _ => true) 1 (initState [0, 0])).2 = none ∧
    (N_REF = 100000 ∧
      ∃ ds : List (List Byte), ds.length = 1 ∧
        (runLoop Htriv (fun _ => true) 1 (initState [0, 0])).1.file =
          recFile Htriv ds ∧
        (runLoop Htriv (fun _ => true) 1 (initState [0, 0])).1.events =
          recEvents Htriv ds) :=
  ⟨by decide, C7_bounded_loop Htriv (fun _ => true) 1 [0, 0] (by decide)⟩

/-- Claim C8: if the entropy source fails at any point — while drawing a
record's size or its content — the run aborts immediately and no partial
record reaches the output: at the failure the file extends the starting
file by complete records only, the byte counter matches them exactly,
and not even a console line was emitted for the failed record. -/
theorem C8_entropy_abort (H : HashFn) (wok : Nat → Bool) (n : Nat)
    (s : RunState)
    (h : (runLoop H wok n s).2 = some GenError.entropySourceUnavailable) :
    ∃ ds : List (List Byte),
      (runLoop H wok n s).1.file = s.file ++ recFile H ds ∧
      (runLoop H wok n s).1.total = s.total + recSize ds ∧
      (runLoop H wok n s).1.events = s.events ++ recEvents H ds := by
  obtain ⟨ds, h1, h2, -, h4, -⟩ := runLoop_spec H wok n s
  exact ⟨ds, h1, h2, h4 h⟩

theorem C8_entropy_abort_witness :
    (runLoop Htriv (fun _ => true) 1 (initState [7])).2 =
      some GenError.entropySourceUnavailable ∧
    ∃ ds : List (List Byte),
      (runLoop Htriv (fun _ => true) 1 (initState [7])).1.file =
        (initState [7]).file ++ recFile Htriv ds ∧
      (runLoop Htriv (fun _ => true) 1 (initState [7])).1.total =
        (initState [7]).total + recSize ds ∧
      (runLoop Htriv (fun _ => true) 1 (initState [7])).1.events =
        (initState [7]).events ++ recEvents Htriv ds :=
  ⟨by decide,
   C8_entropy_abort Htriv (fun _ => true) 1 (initState [7]) (by decide)⟩

/-- Claim C9 counterexample: a run that completes normally (here with
`N = 0`) emits no close of the output file handle — the source acquires
`fp` with a bare `open`, not a `with` block, and never calls `close`, so
guaranteed closure on completion fails already on this input. -/
theorem C9_no_close_cex :
    (gen_main Htriv (fun _ => true) 0 none []).err = none ∧
    Event.close ∉ (gen_main Htriv (fun _ => true) 0 none []).events := by
  decide

/-- Claim C9 (amended): the output file handle is acquired by a bare
`open` (not scoped acquisition) and is never closed by the program — on
completion and on every failure path alike no close is ever performed;
closure is left to interpreter/process exit. -/
theorem C9_never_closed (H : HashFn) (wok : Nat → Bool) (N : Nat)
    (existing : Option (List Byte)) (ent : List Byte) :
    Event.close ∉ (gen_main H wok N existing ent).events := by
  cases existing with
  | some c => simp [gen_main]
  | none =>
    intro hmem
    rcases hr : runLoop H wok N (initState ent) with ⟨s, oe⟩
    have hclose : Event.close ∈ s.events := by
      cases oe with
      | none =>
        have hev : (gen_main H wok N none ent).events =
            s.events ++ [Event.consoleTotal s.total] := by
          simp [gen_main, hr]
        rw [hev] at hmem
        simpa using hmem
      | some e =>
        have hev : (gen_main H wok N none ent).events = s.events := by
          simp [gen_main, hr]
        rwa [hev] at hmem
    have h2 := runLoop_no_close H wok N (initState ent) (by rw [hr]; exact hclose)
    simp [initState] at h2

theorem C9_never_closed_witness :
    Event.close ∉ (gen_main Htriv (fun _ => true) 1 none [0, 0]).events :=
  C9_never_closed Htriv (fun _ => true) 1 none [0, 0]

/-- Claim C10: each written record contributes the event pair
console-line-then-write to the trace (`recEvents`), so the per-record
diagnostic line is always emitted before that record's bytes are
written; consequently, when the run aborts with `IOWriteFailure`, the
trace ends with the console line of the record whose write failed, while
the file holds only the earlier, complete records. -/
theorem C10_console_before_write (H : HashFn) (wok : Nat → Bool) (n : Nat)
    (s : RunState)
    (h : (runLoop H wok n s).2 = some GenError.ioWriteFailure) :
    ∃ (ds : List (List Byte)) (dfail : List Byte),
      (runLoop H wok n s).1.events =
        s.events ++ recEvents H ds ++ [entryEvent H dfail] ∧
      (runLoop H wok n s).1.file = s.file ++ recFile H ds := by
  obtain ⟨ds, h1, -, -, -, h5⟩ := runLoop_spec H wok n s
  obtain ⟨dfail, he⟩ := h5 h
  exact ⟨ds, dfail, he, h1⟩

theorem C10_console_before_write_witness :
    (runLoop Htriv (fun _ => false) 1 (initState [0, 0])).2 =
      some GenError.ioWriteFailure ∧
    ∃ (ds : List (List Byte)) (dfail : List Byte),
      (runLoop Htriv (fun _ => false) 1 (initState [0, 0])).1.events =
        (initState [0, 0]).events ++ recEvents Htriv ds ++
          [entryEvent Htriv dfail] ∧
      (runLoop Htriv (fun _ => false) 1 (initState [0, 0])).1.file =
        (initState [0, 0]).file ++ recFile Htriv ds :=
  ⟨by decide,
   C10_console_before_write Htriv (fun _ => false) 1 (initState [0, 0])
     (by decide)⟩
